import Mathlib

/-!
Verification of the tuisha SHA-256 checksum tool (src/tuisha_0.2.py).

The development shallowly embeds the three cores of the program:
* the streaming hasher `hashfile` (SHA-256 over 65536-byte chunks),
* the directory-tree navigator `populate_tree` / `on_tree_node_selected`,
* the verify/generate workflow `verify_hash` / `generate_hash`.

Files are byte lists (`List Nat`, each byte `< 256`); paths on the hasher
side are plain strings (the program passes them around as strings), and on
the navigator side normalized absolute paths are component lists.
-/

namespace Tuisha

/-! ### SHA-256 (model of Python's `hashlib.sha256`)

`hashlib.sha256` implements FIPS 180-4 SHA-256.  We embed it as an
executable function over byte lists; 32-bit words are `Nat` reduced
modulo `2 ^ 32` where overflow matters. -/

/-- The modulus of 32-bit word arithmetic, `2 ^ 32`. -/
def M32 : Nat := 4294967296

/-- 32-bit modular addition. -/
def add32 (a b : Nat) : Nat := (a + b) % M32

/-- Right rotation of a 32-bit word by `n` places. -/
def rotr (n x : Nat) : Nat := ((x >>> n) ||| (x <<< (32 - n))) % M32

/-- Bitwise complement of a 32-bit word. -/
def not32 (x : Nat) : Nat := x ^^^ 4294967295

/-- SHA-256 choice function. -/
def ch (x y z : Nat) : Nat := (x &&& y) ^^^ (not32 x &&& z)

/-- SHA-256 majority function. -/
def maj (x y z : Nat) : Nat := (x &&& y) ^^^ (x &&& z) ^^^ (y &&& z)

/-- SHA-256 Σ₀. -/
def bigSigma0 (x : Nat) : Nat := rotr 2 x ^^^ rotr 13 x ^^^ rotr 22 x

/-- SHA-256 Σ₁. -/
def bigSigma1 (x : Nat) : Nat := rotr 6 x ^^^ rotr 11 x ^^^ rotr 25 x

/-- SHA-256 σ₀. -/
def smallSigma0 (x : Nat) : Nat := rotr 7 x ^^^ rotr 18 x ^^^ (x >>> 3)

/-- SHA-256 σ₁. -/
def smallSigma1 (x : Nat) : Nat := rotr 17 x ^^^ rotr 19 x ^^^ (x >>> 10)

/-- The SHA-256 round constants K₀…K₆₃ (decimal). -/
def K256 : List Nat :=
  [1116352408, 1899447441, 3049323471, 3921009573, 961987163,
   1508970993, 2453635748, 2870763221, 3624381080, 310598401,
   607225278, 1426881987, 1925078388, 2162078206, 2614888103,
   3248222580, 3835390401, 4022224774, 264347078, 604807628,
   770255983, 1249150122, 1555081692, 1996064986, 2554220882,
   2821834349, 2952996808, 3210313671, 3336571891, 3584528711,
   113926993, 338241895, 666307205, 773529912, 1294757372,
   1396182291, 1695183700, 1986661051, 2177026350, 2456956037,
   2730485921, 2820302411, 3259730800, 3345764771, 3516065817,
   3600352804, 4094571909, 275423344, 430227734, 506948616,
   659060556, 883997877, 958139571, 1322822218, 1537002063,
   1747873779, 1955562222, 2024104815, 2227730452, 2361852424,
   2428436474, 2756734187, 3204031479, 3329325298]

/-- The SHA-256 initial hash value H⁽⁰⁾ (decimal). -/
def H0 : List Nat :=
  [1779033703, 3144134277, 1013904242, 2773480762,
   1359893119, 2600822924, 528734635, 1541459225]

/-- Big-endian 8-byte encoding of a (bit-)length. -/
def lenBytes (n : Nat) : List Nat :=
  [(n >>> 56) % 256, (n >>> 48) % 256, (n >>> 40) % 256, (n >>> 32) % 256,
   (n >>> 24) % 256, (n >>> 16) % 256, (n >>> 8) % 256, n % 256]

/-- SHA-256 padding: append `0x80`, zeros to 56 mod 64, then the 64-bit
big-endian bit length. -/
def padMessage (msg : List Nat) : List Nat :=
  msg ++ 0x80 :: List.replicate ((119 - msg.length % 64) % 64) 0
      ++ lenBytes (8 * msg.length)

/-- Fuel-driven chunk splitter (structural recursion on the fuel, so that
it reduces definitionally; `chunks` supplies fuel `l.length`). -/
def chunksF : Nat → Nat → List α → List (List α)
  | _, _, [] => []
  | 0, _, _ :: _ => []
  | fuel + 1, n, a :: l => (a :: l).take n :: chunksF fuel n ((a :: l).drop n)

/-- Split a list into consecutive chunks of `n` elements (the last chunk
may be shorter). -/
def chunks (n : Nat) (l : List α) : List (List α) := chunksF l.length n l

/-- Combine bytes into big-endian 32-bit words. -/
def toWords : List Nat → List Nat
  | b0 :: b1 :: b2 :: b3 :: rest =>
    ((((b0 <<< 8) ||| b1) <<< 8 ||| b2) <<< 8 ||| b3) :: toWords rest
  | _ => []

/-- Element lookup with default 0, for the schedule accumulator. -/
def wget (l : List Nat) (i : Nat) : Nat := l.getD i 0

/-- Extend the message schedule: `acc` holds the words produced so far in
reverse order, `fuel` counts the words still to produce. -/
def extendSchedule (acc : List Nat) : Nat → List Nat
  | 0 => acc
  | fuel + 1 =>
    extendSchedule
      (add32 (add32 (smallSigma1 (wget acc 1)) (wget acc 6))
         (add32 (smallSigma0 (wget acc 14)) (wget acc 15)) :: acc) fuel

/-- The 64-word message schedule of one 64-byte block. -/
def schedule (block : List Nat) : List Nat :=
  (extendSchedule (toWords block).reverse 48).reverse

/-- One SHA-256 round on the working variables `[a,b,c,d,e,f,g,h]` with a
round constant / schedule word pair. -/
def sha_round (st : List Nat) (kw : Nat × Nat) : List Nat :=
  match st with
  | [a, b, c, d, e, f, g, h] =>
    let t1 := add32 h (add32 (bigSigma1 e) (add32 (ch e f g) (add32 kw.1 kw.2)))
    let t2 := add32 (bigSigma0 a) (maj a b c)
    [add32 t1 t2, a, b, c, add32 d t1, e, f, g]
  | other => other

/-- SHA-256 compression of one 64-byte block into the hash value. -/
def compressBlock (hv : List Nat) (block : List Nat) : List Nat :=
  List.zipWith add32 hv (List.foldl sha_round hv (K256.zip (schedule block)))

/-- The SHA-256 digest of a byte sequence, as eight 32-bit words. -/
def sha256Words (msg : List Nat) : List Nat :=
  List.foldl compressBlock H0 (chunks 64 (padMessage msg))

/-- The hex character for a nibble (lowercase, as Python's `hexdigest`). -/
def hexDigit (n : Nat) : Char :=
  if n < 10 then Char.ofNat (48 + n) else Char.ofNat (87 + n)

/-- A 32-bit word as 8 lowercase hex characters, big-endian. -/
def wordHex (w : Nat) : List Char :=
  [hexDigit ((w >>> 28) % 16), hexDigit ((w >>> 24) % 16),
   hexDigit ((w >>> 20) % 16), hexDigit ((w >>> 16) % 16),
   hexDigit ((w >>> 12) % 16), hexDigit ((w >>> 8) % 16),
   hexDigit ((w >>> 4) % 16), hexDigit (w % 16)]

/-- The SHA-256 digest of a byte sequence as a lowercase hex string: the
reference hash against which the streaming hasher is compared. -/
def sha256hex (msg : List Nat) : String :=
  ⟨((sha256Words msg).map wordHex).flatten⟩

/-! ### Python string operations

Models of the `str` methods the program uses: `strip`, `lower`, `upper`
(over the ASCII range, which covers hex digests and the whitespace the
claims quantify over). -/

/-- Whitespace recognized by `str.strip` (ASCII range): space, tab,
newline, carriage return, vertical tab, form feed. -/
def pySpace (c : Char) : Bool :=
  c.toNat = 32 || c.toNat = 9 || c.toNat = 10 || c.toNat = 13 ||
    c.toNat = 11 || c.toNat = 12

/-- Drop trailing whitespace from a character list. -/
def stripRight (l : List Char) : List Char :=
  (l.reverse.dropWhile pySpace).reverse

/-- Drop leading and trailing whitespace from a character list. -/
def stripChars (l : List Char) : List Char :=
  stripRight (l.dropWhile pySpace)

/-- Model of Python's `str.strip()`. -/
def pyStrip (s : String) : String := ⟨stripChars s.data⟩

/-- Model of Python's `str.startswith`. -/
def pyStartsWith (s pre : String) : Bool := pre.data.isPrefixOf s.data

/-- Model of `str.lower` on one character (ASCII range). -/
def pyLowerChar (c : Char) : Char :=
  if 65 ≤ c.toNat ∧ c.toNat ≤ 90 then Char.ofNat (c.toNat + 32) else c

/-- Model of Python's `str.lower()` (ASCII range). -/
def pyLower (s : String) : String := ⟨s.data.map pyLowerChar⟩

/-- Model of `str.upper` on one character (ASCII range). -/
def pyUpperChar (c : Char) : Char :=
  if 97 ≤ c.toNat ∧ c.toNat ≤ 122 then Char.ofNat (c.toNat - 32) else c

/-- Model of Python's `str.upper()` (ASCII range). -/
def pyUpper (s : String) : String := ⟨s.data.map pyUpperChar⟩

/-! ### Filesystem model and the streaming hasher `hashfile`

The hasher side addresses the filesystem by path strings (the program
passes paths around as strings).  A path resolves to a regular file
(with content and a readability flag), a directory, or nothing. -/

/-- What a path resolves to. -/
inductive FsNode
  | file (content : List Nat) (readable : Bool)
  | dir
  | missing
deriving DecidableEq

/-- A filesystem: a resolution function from path strings. -/
structure Filesystem where
  node : String → FsNode

/-- The exceptions `open(path, "rb")` can raise that the program
distinguishes: `FileNotFoundError`, `PermissionError`, and every other
`Exception` (carrying its message). -/
inductive PyErr
  | fileNotFound
  | permissionError
  | other (msg : String)
deriving DecidableEq

/-- Model of Python's `open(path, "rb")` followed by reading to EOF:
a missing path raises `FileNotFoundError`, an unreadable file raises
`PermissionError`, and a directory raises `IsADirectoryError` — which is
neither of the two, so it lands in the catch-all `except Exception`. -/
def pyOpenRead (fs : Filesystem) (p : String) : Except PyErr (List Nat) :=
  match fs.node p with
  | .missing => .error .fileNotFound
  | .dir => .error (.other ("Is a directory: " ++ p))
  | .file c r => if r then .ok c else .error .permissionError

/-- Model of `os.path.isfile`. -/
def isfile (fs : Filesystem) (p : String) : Bool :=
  match fs.node p with
  | .file _ _ => true
  | _ => false

/-- One `sha256.update(chunk)` call: the accumulator abstractly holds the
bytes fed so far. -/
def shaUpdate (st : List Nat) (chunk : List Nat) : List Nat := st ++ chunk

/-- The read-buffer size of `hashfile`. -/
def BUF_SIZE : Nat := 65536

/-- The try-block of `hashfile`, before any exception handler: open the
file, feed it to the accumulator in `BUF_SIZE` chunks, return the final
hexdigest; any `PyErr` propagates. -/
def hashfileBody (fs : Filesystem) (p : String) : Except PyErr String :=
  match pyOpenRead fs p with
  | .ok content =>
    .ok (sha256hex (List.foldl shaUpdate [] (chunks BUF_SIZE content)))
  | .error e => .error e

/-- The observable outcome of one `hashfile` call: its return value
(`str | None`) and the `result_label` update it performs, if any. -/
structure HashCall where
  result : Option String
  message : Option String
deriving DecidableEq

/-- The error text for `FileNotFoundError`. -/
def fileNotFoundMsg : String := "❌  Error: File not found."

/-- The error text for `PermissionError`. -/
def permDeniedMsg : String := "❌  Error: Permission denied."

/-- The error text for any other exception. -/
def unexpectedMsg (m : String) : String := "⚠️  Unexpected error: " ++ m

/-- Model of `VerifyHashScreen.hashfile` / `GenerateHashScreen.hashfile`
(the two method bodies are identical): every exception the body can raise
is caught and turned into a label update, and `None` is returned. -/
def hashfile (fs : Filesystem) (p : String) : HashCall :=
  match hashfileBody fs p with
  | .ok d => ⟨some d, none⟩
  | .error .fileNotFound => ⟨none, some fileNotFoundMsg⟩
  | .error .permissionError => ⟨none, some permDeniedMsg⟩
  | .error (.other m) => ⟨none, some (unexpectedMsg m)⟩

/-- The spec's HashResult view of one hasher invocation. -/
inductive HashResult
  | Success (digest : String)
  | NotFound
  | PermissionDenied
  | OtherError (msg : String)
deriving DecidableEq

/-- The HashResult produced by a `hashfile` call. -/
def hashResult (fs : Filesystem) (p : String) : HashResult :=
  match hashfileBody fs p with
  | .ok d => .Success d
  | .error .fileNotFound => .NotFound
  | .error .permissionError => .PermissionDenied
  | .error (.other m) => .OtherError m

/-! ### Verify / Generate workflow -/

/-- The mutable fields of `VerifyHashScreen` the workflow touches. -/
structure VerifyState where
  hashInput : String
  fileInput : String
  resultLabel : String
deriving DecidableEq

/-- The empty-expected-hash validation message. -/
def emptyHashMsg : String := "⚠️  Error: Expected hash cannot be empty."

/-- The invalid-file-path validation message. -/
def invalidPathMsg : String := "⚠️  Error: Please enter a valid file path."

/-- The in-progress message of `verify_hash`. -/
def verifyingMsg : String := "🔄  Verifying checksum..."

/-- The matching-digests message. -/
def matchMsg : String := "✅  Hashes match, file is legit."

/-- The differing-digests message. -/
def mismatchMsg : String := "❌  Hashes are different, beware!"

/-- Model of `VerifyHashScreen.verify_hash`, parametrized by the
`os.path.isfile` check and the hasher so that non-invocation of the
hasher on invalid input is expressible. -/
def verify_hashWith (isf : String → Bool) (hasher : String → HashCall)
    (st : VerifyState) : VerifyState :=
  let expected := pyStrip st.hashInput
  let filePath := pyStrip st.fileInput
  if expected = "" then { st with resultLabel := emptyHashMsg }
  else if filePath = "" || !(isf filePath) then { st with resultLabel := invalidPathMsg }
  else
    let st1 := { st with resultLabel := verifyingMsg }
    let hc := hasher filePath
    let st2 := match hc.message with
      | some m => { st1 with resultLabel := m }
      | none => st1
    match hc.result with
    | some d =>
      if d ≠ "" then
        if pyLower expected = pyLower d then { st2 with resultLabel := matchMsg }
        else { st2 with resultLabel := mismatchMsg }
      else st2
    | none => st2

/-- The `verify_hash` method against a concrete filesystem. -/
def verify_hash (fs : Filesystem) (st : VerifyState) : VerifyState :=
  verify_hashWith (isfile fs) (hashfile fs) st

/-- Model of `VerifyHashScreen.clear_fields`. -/
def clear_fields (_st : VerifyState) : VerifyState := ⟨"", "", ""⟩

/-- Model of `VerifyHashScreen.on_file_selected`: only the file-path
field changes. -/
def verifyOnFileSelected (st : VerifyState) (path : String) : VerifyState :=
  { st with fileInput := path }

/-- The mutable fields of `GenerateHashScreen` the workflow touches. -/
structure GenState where
  fileInput : String
  hashOutput : String
  resultLabel : String
deriving DecidableEq

/-- The in-progress message of `generate_hash`. -/
def generatingMsg : String := "🔄  Generating hash..."

/-- The success message of `generate_hash`. -/
def genSuccessMsg : String :=
  "✅  Hash generated successfully. Click the hash field or press Enter to copy."

/-- Model of `GenerateHashScreen.generate_hash`, parametrized like
`verify_hashWith`. -/
def generate_hashWith (isf : String → Bool) (hasher : String → HashCall)
    (st : GenState) : GenState :=
  let filePath := pyStrip st.fileInput
  if filePath = "" || !(isf filePath) then
    { st with resultLabel := invalidPathMsg, hashOutput := "" }
  else
    let st1 := { st with resultLabel := generatingMsg }
    let hc := hasher filePath
    let st2 := match hc.message with
      | some m => { st1 with resultLabel := m }
      | none => st1
    match hc.result with
    | some d =>
      if d ≠ "" then { st2 with hashOutput := d, resultLabel := genSuccessMsg }
      else { st2 with hashOutput := "" }
    | none => { st2 with hashOutput := "" }

/-- The `generate_hash` method against a concrete filesystem. -/
def generate_hash (fs : Filesystem) (st : GenState) : GenState :=
  generate_hashWith (isfile fs) (hashfile fs) st

/-- Model of `GenerateHashScreen.on_file_selected`: sets the file-path
field and then calls `generate_hash` directly. -/
def genOnFileSelected (fs : Filesystem) (st : GenState) (path : String) : GenState :=
  generate_hash fs { st with fileInput := path }

/-- The parametrized form of `GenerateHashScreen.on_file_selected`. -/
def genOnFileSelectedWith (isf : String → Bool) (hasher : String → HashCall)
    (st : GenState) (path : String) : GenState :=
  generate_hashWith isf hasher { st with fileInput := path }

/-! ### Directory tree navigator

Normalized absolute paths are component lists; `[]` is the filesystem
root `/`.  A directory's raw scan result is a list of named entries, in
arbitrary order; a scan may raise `PermissionError`. -/

/-- An entry as `os.scandir` yields it: a name and whether it is a
directory. -/
structure RawEntry where
  name : String
  isDir : Bool
deriving DecidableEq

/-- The navigator-side filesystem: `os.scandir` per directory path, which
either yields the raw entries or raises `PermissionError`. -/
structure ScanFS where
  readDir : List String → Except Unit (List RawEntry)

/-- The kind of a listing entry (annotation recording which branch of
`populate_tree` constructed it). -/
inductive EntryKind
  | ParentLink
  | Directory
  | File
deriving DecidableEq

/-- One node of the browser tree: the widget attributes `label`, `data`
(the target path) and `allow_expand`, plus the raw entry name and the
kind annotation. -/
structure TNode where
  label : String
  name : String
  data : List String
  allowExpand : Bool
  kind : EntryKind
deriving DecidableEq

/-- Model of `os.path.abspath(os.path.join(path, os.pardir))` on a
normalized absolute path given as its component list: the parent of the
root is the root itself. -/
def parentDirOf (p : List String) : List String := p.dropLast

/-- The label of the parent-link node. -/
def upLabel : String := "⬆  .. (Parent Directory)"

/-- The parent-link node added at the top of a listing. -/
def upNode (p : List String) : TNode :=
  ⟨upLabel, upLabel, parentDirOf p, false, .ParentLink⟩

/-- The nodes added before the `os.scandir` call: the parent link, unless
the computed parent equals the current path. -/
def parentNodes (p : List String) : List TNode :=
  if parentDirOf p ≠ p then [upNode p] else []

/-- Lexicographic order on character lists by code point, as Python
compares strings. -/
def strLeB : List Char → List Char → Bool
  | [], _ => true
  | _ :: _, [] => false
  | a :: as, b :: bs =>
    if a.toNat < b.toNat then true
    else if a.toNat = b.toNat then strLeB as bs
    else false

/-- The sort key of `populate_tree`'s loop:
`(not e.is_dir(), e.name.lower())`. -/
def keyOf (e : RawEntry) : Bool × List Char := (!e.isDir, (pyLower e.name).data)

/-- The sort order on raw entries: lexicographic on `keyOf`, with
`false < true` on the directory flag. -/
def scanLeB (a b : RawEntry) : Bool :=
  if (keyOf a).1 = (keyOf b).1 then strLeB (keyOf a).2 (keyOf b).2
  else if (keyOf a).1 = false then true
  else false

/-- The sort order of `populate_tree`, as a relation. -/
def scanLe (a b : RawEntry) : Prop := scanLeB a b = true

instance instDecScanLe : DecidableRel scanLe := fun a b =>
  inferInstanceAs (Decidable (scanLeB a b = true))

/-- The node built for one kept raw entry. -/
def entryNode (p : List String) (e : RawEntry) : TNode :=
  if e.isDir then ⟨"📁  " ++ e.name, e.name, p ++ [e.name], true, .Directory⟩
  else ⟨"📄  " ++ e.name, e.name, p ++ [e.name], false, .File⟩

/-- The loop body of `populate_tree`: sort the scanned entries by
`(not is_dir, name.lower())`, skip names starting with `.`, and add a
node per remaining entry. -/
def listingOf (p : List String) (raw : List RawEntry) : List TNode :=
  ((List.insertionSort scanLe raw).filter (fun e => !(pyStartsWith e.name "."))).map
    (entryNode p)

/-- The navigator state: the current directory and its entry list. -/
structure TreeState where
  current : List String
  entries : List TNode
deriving DecidableEq

/-- The try-block of `populate_tree` without its exception handler: a
`PermissionError` from `os.scandir` propagates. -/
def populateBody (fs : ScanFS) (p : List String) : Except Unit (List TNode) :=
  match fs.readDir p with
  | .ok raw => .ok (parentNodes p ++ listingOf p raw)
  | .error e => .error e

/-- Model of `FileBrowser.populate_tree`: on `PermissionError` the
handler is `pass`, keeping the nodes already added before `os.scandir`
raised — exactly the parent link. -/
def populate_tree (fs : ScanFS) (p : List String) : TreeState :=
  { current := p,
    entries :=
      match fs.readDir p with
      | .ok raw => parentNodes p ++ listingOf p raw
      | .error _ => parentNodes p }

/-- The events the browser posts to its screen. -/
inductive AppEvent
  | fileSelected (path : List String)
deriving DecidableEq

/-- Model of `FileBrowser.on_tree_node_selected`: returns the new tree
state and the posted events. -/
def on_tree_node_selected (fs : ScanFS) (st : TreeState) (node : TNode) :
    TreeState × List AppEvent :=
  if node.data = st.current then (st, [])
  else if pyStartsWith node.label "⬆  .." then (populate_tree fs node.data, [])
  else if node.allowExpand then (populate_tree fs node.data, [])
  else (st, [.fileSelected node.data])

/-- Lowercase-hex character predicate (digit or `a`–`f`). -/
def isLowerHexChar (c : Char) : Bool :=
  (48 ≤ c.toNat && c.toNat ≤ 57) || (97 ≤ c.toNat && c.toNat ≤ 102)

/-- The spec-level verification outcome, read off the displayed label. -/
inductive VerificationOutcome
  | Match
  | Mismatch
  | InvalidInput (reason : String)
  | Displayed (text : String)
deriving DecidableEq

/-- Map a displayed `result_label` text to the spec's outcome variant. -/
def labelOutcome (s : String) : VerificationOutcome :=
  if s = emptyHashMsg then .InvalidInput "empty expected hash"
  else if s = invalidPathMsg then .InvalidInput "invalid file path"
  else if s = matchMsg then .Match
  else if s = mismatchMsg then .Mismatch
  else .Displayed s

/-! ### Concrete fixtures used by witnesses and counterexamples -/

/-- A filesystem with a single readable empty file at path `f`. -/
def fsEmptyFile : Filesystem :=
  ⟨fun p => if p = "f" then .file [] true else .missing⟩

/-- A filesystem with a readable directory at path `d`. -/
def fsDirOnly : Filesystem :=
  ⟨fun p => if p = "d" then .dir else .missing⟩

/-- A filesystem with an unreadable file at path `locked`. -/
def fsLockedFile : Filesystem :=
  ⟨fun p => if p = "locked" then .file [1, 2, 3] false else .missing⟩

/-- A scan filesystem: directory `["a"]` holds four entries (one hidden),
and every other directory raises `PermissionError`. -/
def scanDemo : ScanFS :=
  ⟨fun p =>
    if p = ["a"] then
      .ok [⟨"b.txt", false⟩, ⟨"Sub", true⟩, ⟨".hidden", false⟩, ⟨"data", true⟩]
    else .error ()⟩

/-- The SHA-256 digest of the empty byte sequence. -/
def emptyDigest : String :=
  "e3b0c44298fc1c149afbf4c8996fb92427ae41e4649b934ca495991b7852b855"

end Tuisha

namespace Tuisha

/-! ## Helper lemmas -/

theorem chunksF_flatten (n : Nat) (hn : 0 < n) :
    ∀ (fuel : Nat) (l : List α), l.length ≤ fuel → (chunksF fuel n l).flatten = l := by
  intro fuel
  induction fuel with
  | zero =>
    intro l hl
    cases l with
    | nil => rfl
    | cons a t => simp at hl
  | succ fuel ih =>
    intro l hl
    cases l with
    | nil => rfl
    | cons a t =>
      simp only [chunksF, List.flatten_cons]
      rw [ih ((a :: t).drop n)
        (by simp only [List.length_drop, List.length_cons] at hl ⊢; omega)]
      exact List.take_append_drop n (a :: t)

theorem chunks_flatten (n : Nat) (hn : 0 < n) (l : List α) :
    (chunks n l).flatten = l :=
  chunksF_flatten n hn l.length l le_rfl

theorem foldl_shaUpdate (L : List (List Nat)) (a : List Nat) :
    List.foldl shaUpdate a L = a ++ L.flatten := by
  induction L generalizing a with
  | nil => simp
  | cons c L ih => simp [shaUpdate, ih, List.append_assoc]

/-- Streaming the file through 65536-byte chunks hashes exactly the whole
content: the chunked accumulator feeds the same byte sequence. -/
theorem hashfileBody_file {fs : Filesystem} {p : String} {c : List Nat}
    (h : fs.node p = .file c true) :
    hashfileBody fs p = .ok (sha256hex c) := by
  unfold hashfileBody pyOpenRead
  rw [h]
  simp [foldl_shaUpdate, chunks_flatten BUF_SIZE (by decide) c]

theorem hashfile_file {fs : Filesystem} {p : String} {c : List Nat}
    (h : fs.node p = .file c true) :
    hashfile fs p = ⟨some (sha256hex c), none⟩ := by
  unfold hashfile
  rw [hashfileBody_file h]

theorem sha_round_length (st : List Nat) (kw : Nat × Nat) :
    (sha_round st kw).length = st.length := by
  unfold sha_round
  split <;> simp

theorem foldl_sha_round_length (ps : List (Nat × Nat)) (st : List Nat) :
    (List.foldl sha_round st ps).length = st.length := by
  induction ps generalizing st with
  | nil => rfl
  | cons q ps ih => simp [ih, sha_round_length]

theorem compressBlock_length (st : List Nat) (b : List Nat) :
    (compressBlock st b).length = st.length := by
  unfold compressBlock
  simp [foldl_sha_round_length]

theorem sha256Words_length (m : List Nat) : (sha256Words m).length = 8 := by
  unfold sha256Words
  generalize chunks 64 (padMessage m) = bs
  have : ∀ (bs : List (List Nat)) (hv : List Nat),
      (List.foldl compressBlock hv bs).length = hv.length := by
    intro bs
    induction bs with
    | nil => intro hv; rfl
    | cons b bs ih => intro hv; simp [ih, compressBlock_length]
  simp [this, H0]

theorem hexDigit_hex : ∀ n < 16, isLowerHexChar (hexDigit n) = true := by decide

theorem mem_wordHex_hex (w : Nat) : ∀ c ∈ wordHex w, isLowerHexChar c = true := by
  intro c hc
  simp only [wordHex, List.mem_cons, List.not_mem_nil, or_false] at hc
  rcases hc with h | h | h | h | h | h | h | h <;> subst h <;>
    exact hexDigit_hex _ (Nat.mod_lt _ (by norm_num))

theorem sha256hex_length (m : List Nat) : (sha256hex m).length = 64 := by
  show ((sha256Words m).map wordHex).flatten.length = 64
  rw [List.length_flatten]
  have h8 : ((sha256Words m).map wordHex).map List.length
      = (sha256Words m).map (fun _ => 8) := by
    rw [List.map_map]
    exact List.map_congr_left (fun w _ => by simp [wordHex])
  have hsum : ∀ l : List Nat, (l.map (fun _ => (8 : Nat))).sum = 8 * l.length := by
    intro l
    induction l with
    | nil => rfl
    | cons a l ih => simp [ih]; omega
  rw [h8, hsum, sha256Words_length]

theorem sha256hex_chars (m : List Nat) :
    ∀ c ∈ (sha256hex m).data, isLowerHexChar c = true := by
  intro c hc
  have : c ∈ ((sha256Words m).map wordHex).flatten := hc
  rw [List.mem_flatten] at this
  obtain ⟨l, hl, hcl⟩ := this
  rw [List.mem_map] at hl
  obtain ⟨w, _, rfl⟩ := hl
  exact mem_wordHex_hex w c hcl

theorem toNat_ofNat_ascii : ∀ n < 128, (Char.ofNat n).toNat = n := by decide

theorem hex_bounds {c : Char} (h : isLowerHexChar c = true) :
    (48 ≤ c.toNat ∧ c.toNat ≤ 57) ∨ (97 ≤ c.toNat ∧ c.toNat ≤ 102) := by
  simpa [isLowerHexChar, Bool.or_eq_true, Bool.and_eq_true,
    decide_eq_true_eq] using h

theorem hex_pyLowerChar {c : Char} (h : isLowerHexChar c = true) :
    pyLowerChar c = c := by
  have hb := hex_bounds h
  unfold pyLowerChar
  rw [if_neg (by omega)]

theorem hex_not_space {c : Char} (h : isLowerHexChar c = true) :
    pySpace c = false := by
  have hb := hex_bounds h
  simp only [pySpace, Bool.or_eq_false_iff, decide_eq_false_iff_not]
  omega

theorem hexUpper_not_space {c : Char} (h : isLowerHexChar c = true) :
    pySpace (pyUpperChar c) = false := by
  have hb := hex_bounds h
  unfold pyUpperChar
  split
  case isTrue hif =>
    have ht : (Char.ofNat (c.toNat - 32)).toNat = c.toNat - 32 :=
      toNat_ofNat_ascii _ (by omega)
    simp only [pySpace, Bool.or_eq_false_iff, decide_eq_false_iff_not, ht]
    omega
  case isFalse hif => exact hex_not_space h

theorem hex_pyLower_pyUpper {c : Char} (h : isLowerHexChar c = true) :
    pyLowerChar (pyUpperChar c) = c := by
  have hb := hex_bounds h
  unfold pyUpperChar
  split
  case isTrue hif =>
    have ht : (Char.ofNat (c.toNat - 32)).toNat = c.toNat - 32 :=
      toNat_ofNat_ascii _ (by omega)
    unfold pyLowerChar
    rw [if_pos (by omega), ht]
    have : c.toNat - 32 + 32 = c.toNat := by omega
    rw [this, Char.ofNat_toNat]
  case isFalse hif => exact hex_pyLowerChar h

theorem pyLower_of_hex {s : String}
    (h : ∀ c ∈ s.data, isLowerHexChar c = true) : pyLower s = s := by
  cases s with
  | mk d =>
    show String.mk (d.map pyLowerChar) = String.mk d
    congr 1
    have hmap : d.map pyLowerChar = d.map id :=
      List.map_congr_left fun c hc => hex_pyLowerChar (h c hc)
    rw [hmap, List.map_id]

theorem pyLower_pyUpper_of_hex {s : String}
    (h : ∀ c ∈ s.data, isLowerHexChar c = true) : pyLower (pyUpper s) = s := by
  cases s with
  | mk d =>
    show String.mk ((d.map pyUpperChar).map pyLowerChar) = String.mk d
    congr 1
    rw [List.map_map]
    have hmap : d.map (pyLowerChar ∘ pyUpperChar) = d.map id :=
      List.map_congr_left fun c hc => hex_pyLower_pyUpper (h c hc)
    rw [hmap, List.map_id]

theorem dropWhile_eq_self_of {p : Char → Bool} {l : List Char}
    (h : ∀ c ∈ l, p c = false) : l.dropWhile p = l := by
  cases l with
  | nil => rfl
  | cons a t => simp [List.dropWhile_cons, h a (by simp)]

theorem stripChars_of_nospace {l : List Char}
    (h : ∀ c ∈ l, pySpace c = false) : stripChars l = l := by
  unfold stripChars stripRight
  rw [dropWhile_eq_self_of h,
    dropWhile_eq_self_of (fun c hc => h c (List.mem_reverse.mp hc)),
    List.reverse_reverse]

theorem pyStrip_of_nospace {s : String}
    (h : ∀ c ∈ s.data, pySpace c = false) : pyStrip s = s := by
  cases s with
  | mk d =>
    show String.mk (stripChars d) = String.mk d
    rw [stripChars_of_nospace h]

theorem dropWhile_ws_append {w t : List Char}
    (hw : ∀ c ∈ w, pySpace c = true) :
    (w ++ t).dropWhile pySpace = t.dropWhile pySpace := by
  induction w with
  | nil => rfl
  | cons a w ih =>
    simp only [List.cons_append, List.dropWhile_cons, hw a (by simp)]
    exact ih fun c hc => hw c (by simp [hc])

theorem dropWhile_append_of_ne_nil {p : Char → Bool} {t u : List Char}
    (h : t.dropWhile p ≠ []) :
    (t ++ u).dropWhile p = t.dropWhile p ++ u := by
  induction t with
  | nil => simp at h
  | cons a t ih =>
    by_cases hp : p a = true
    · simp only [List.cons_append, List.dropWhile_cons, hp, if_true]
      simp only [List.dropWhile_cons, hp, if_true] at h
      exact ih h
    · simp only [Bool.not_eq_true] at hp
      simp [List.dropWhile_cons, hp]

theorem stripRight_append_ws {x w : List Char}
    (hw : ∀ c ∈ w, pySpace c = true) : stripRight (x ++ w) = stripRight x := by
  unfold stripRight
  rw [List.reverse_append,
    dropWhile_ws_append (fun c hc => hw c (List.mem_reverse.mp hc))]

theorem stripChars_ws_left {w t : List Char}
    (hw : ∀ c ∈ w, pySpace c = true) : stripChars (w ++ t) = stripChars t := by
  unfold stripChars
  rw [dropWhile_ws_append hw]

theorem stripChars_ws_right {t w : List Char}
    (hw : ∀ c ∈ w, pySpace c = true) : stripChars (t ++ w) = stripChars t := by
  by_cases hd : t.dropWhile pySpace = []
  · have ht : ∀ c ∈ t, pySpace c = true := List.dropWhile_eq_nil_iff.mp hd
    have : (t ++ w).dropWhile pySpace = [] := by
      rw [List.dropWhile_eq_nil_iff]
      intro c hc
      rcases List.mem_append.mp hc with h | h
      · exact ht c h
      · exact hw c h
    unfold stripChars
    rw [this, hd]
  · unfold stripChars
    rw [dropWhile_append_of_ne_nil hd, stripRight_append_ws hw]

theorem stripChars_ws_wrap {w1 w2 t : List Char}
    (h1 : ∀ c ∈ w1, pySpace c = true) (h2 : ∀ c ∈ w2, pySpace c = true) :
    stripChars (w1 ++ t ++ w2) = stripChars t := by
  rw [List.append_assoc, stripChars_ws_left h1, stripChars_ws_right h2]

theorem pyStrip_allws {s : String}
    (h : ∀ c ∈ s.data, pySpace c = true) : pyStrip s = "" := by
  show String.mk (stripChars s.data) = ""
  unfold stripChars stripRight
  rw [List.dropWhile_eq_nil_iff.mpr h]
  rfl

theorem sha256hex_ne_empty (c : List Nat) : sha256hex c ≠ "" := by
  intro h
  have := congrArg String.length h
  rw [sha256hex_length] at this
  simp at this

theorem pyStrip_sha256hex (c : List Nat) : pyStrip (sha256hex c) = sha256hex c :=
  pyStrip_of_nospace fun ch hc => hex_not_space (sha256hex_chars c ch hc)

theorem pyLower_sha256hex (c : List Nat) : pyLower (sha256hex c) = sha256hex c :=
  pyLower_of_hex (sha256hex_chars c)

/-! ## Claim theorems -/

/-- C1 counterexample: the spec's known-answer digest for the empty file is a
63-character string, while hashing an empty file actually yields the
64-character digest ending in `b855` — so the claim's known-answer conjunct
is false at the empty file. -/
theorem C1_counterexample :
    (hashfile fsEmptyFile "f").result = some emptyDigest ∧
    emptyDigest ≠ "e3b0c44298fc1c149afbf4c8996fb92427ae41e4649b934ca495991b7852b85" ∧
    ("e3b0c44298fc1c149afbf4c8996fb92427ae41e4649b934ca495991b7852b85" : String).length = 63 := by
  refine ⟨by decide, by decide, by decide⟩

/-- C1 (amended): for every file with fixed content, the hash is
deterministic — any invocation on a file with the same content returns the
same digest; the successful digest is a 64-character lowercase-hex string
equal to the reference SHA-256 of the content; and hashing an empty file
yields `e3b0c44298fc1c149afbf4c8996fb92427ae41e4649b934ca495991b7852b855`
(the spec's known-answer string with its dropped final `5` restored). -/
theorem C1_hash_deterministic_hex_reference {fs : Filesystem} {p : String}
    {c : List Nat} (h : fs.node p = .file c true) :
    (hashfile fs p).result = some (sha256hex c) ∧
    (∀ (fs2 : Filesystem) (p2 : String), fs2.node p2 = .file c true →
      hashfile fs2 p2 = hashfile fs p) ∧
    (sha256hex c).length = 64 ∧
    (∀ ch ∈ (sha256hex c).data, isLowerHexChar ch = true) ∧
    (c = [] → (hashfile fs p).result = some emptyDigest) := by
  refine ⟨?_, ?_, sha256hex_length c, sha256hex_chars c, ?_⟩
  · rw [hashfile_file h]
  · intro fs2 p2 h2
    rw [hashfile_file h2, hashfile_file h]
  · intro hempty
    subst hempty
    rw [hashfile_file h]
    show some (sha256hex []) = some emptyDigest
    decide

/-- C1 witness: the amended theorem applied to the concrete filesystem whose
path `f` holds a readable empty file. -/
theorem C1_witness :
    (hashfile fsEmptyFile "f").result = some (sha256hex []) :=
  (@C1_hash_deterministic_hex_reference fsEmptyFile "f" [] (by decide)).1

/-- C4 counterexample: on a path that resolves to a directory — which does
not resolve to an existing regular file — the hasher fails with
`OtherError` (Python raises `IsADirectoryError`, caught by the generic
handler), not with `NotFound` as the claim requires. -/
theorem C4_counterexample :
    isfile fsDirOnly "d" = false ∧
    hashResult fsDirOnly "d" ≠ HashResult.NotFound ∧
    hashResult fsDirOnly "d" = HashResult.OtherError "Is a directory: d" := by
  refine ⟨by decide, by decide, by decide⟩

/-- C4 (amended): the hasher fails with `NotFound` exactly when the path
does not exist, with `PermissionDenied` exactly when it is a regular file
the process cannot read, succeeds with the content's digest on a readable
regular file, fails with `OtherError` on a directory, and converts every
exception of its body into a label message and a `None` return — no error
escapes as an exception. -/
theorem C4_hashfile_error_taxonomy (fs : Filesystem) (p : String) :
    (hashResult fs p = .NotFound ↔ fs.node p = .missing) ∧
    (hashResult fs p = .PermissionDenied ↔ ∃ c, fs.node p = .file c false) ∧
    (∀ c, fs.node p = .file c true → hashResult fs p = .Success (sha256hex c)) ∧
    (fs.node p = .dir → hashResult fs p = .OtherError ("Is a directory: " ++ p)) ∧
    (∀ e, hashfileBody fs p = .error e →
      (hashfile fs p).result = none ∧ (hashfile fs p).message.isSome = true) := by
  refine ⟨?_, ?_, ?_, ?_, ?_⟩
  all_goals
    cases hn : fs.node p with
    | file c r =>
      cases r with
      | true =>
        simp [hashResult, hashfileBody_file hn, hashfile, hn]
      | false =>
        simp only [hashResult, hashfileBody, pyOpenRead, hashfile, hn,
          Bool.false_eq_true, if_false]
        simp [hn]
    | dir =>
      simp [hashResult, hashfileBody, pyOpenRead, hashfile, hn]
    | missing =>
      simp [hashResult, hashfileBody, pyOpenRead, hashfile, hn]

/-- C4 witness: the amended theorem applied to a filesystem whose path `f`
holds a readable empty file. -/
theorem C4_witness : hashResult fsEmptyFile "f" = .Success (sha256hex []) :=
  (C4_hashfile_error_taxonomy fsEmptyFile "f").2.2.1 [] (by decide)

/-- C3: verification with a blank (post-strip) expected hash reports the
empty-expected-hash `InvalidInput`; with a nonblank expected hash but a
blank path or a path that is not an existing regular file it reports the
invalid-file-path `InvalidInput`; and on any such invalid input the result
is independent of the hasher — the hasher is not invoked. -/
theorem C3_verify_invalid_input (isf : String → Bool)
    (h1 h2 : String → HashCall) (st : VerifyState) :
    (pyStrip st.hashInput = "" →
      verify_hashWith isf h1 st = { st with resultLabel := emptyHashMsg } ∧
      labelOutcome (verify_hashWith isf h1 st).resultLabel =
        .InvalidInput "empty expected hash") ∧
    (pyStrip st.hashInput ≠ "" →
      (pyStrip st.fileInput = "" ∨ isf (pyStrip st.fileInput) = false) →
      verify_hashWith isf h1 st = { st with resultLabel := invalidPathMsg } ∧
      labelOutcome (verify_hashWith isf h1 st).resultLabel =
        .InvalidInput "invalid file path") ∧
    ((pyStrip st.hashInput = "" ∨ pyStrip st.fileInput = "" ∨
        isf (pyStrip st.fileInput) = false) →
      verify_hashWith isf h1 st = verify_hashWith isf h2 st) := by
  have keyEmpty : ∀ hh : String → HashCall, pyStrip st.hashInput = "" →
      verify_hashWith isf hh st = { st with resultLabel := emptyHashMsg } := by
    intro hh he
    simp only [verify_hashWith]
    rw [if_pos he]
  have keyPath : ∀ hh : String → HashCall, pyStrip st.hashInput ≠ "" →
      (pyStrip st.fileInput = "" ∨ isf (pyStrip st.fileInput) = false) →
      verify_hashWith isf hh st = { st with resultLabel := invalidPathMsg } := by
    intro hh he hp
    simp only [verify_hashWith]
    rw [if_neg he, if_pos (by rcases hp with h | h <;> simp [h])]
  refine ⟨fun he => ⟨keyEmpty h1 he, ?_⟩, fun he hp => ⟨keyPath h1 he hp, ?_⟩, ?_⟩
  · rw [keyEmpty h1 he]
    show labelOutcome emptyHashMsg = VerificationOutcome.InvalidInput "empty expected hash"
    decide
  · rw [keyPath h1 he hp]
    show labelOutcome invalidPathMsg = VerificationOutcome.InvalidInput "invalid file path"
    decide
  · intro h3
    by_cases he : pyStrip st.hashInput = ""
    · rw [keyEmpty h1 he, keyEmpty h2 he]
    · have hp : pyStrip st.fileInput = "" ∨ isf (pyStrip st.fileInput) = false := by
        tauto
      rw [keyPath h1 he hp, keyPath h2 he hp]

/-- C3 witness: the theorem applied to a blank expected hash and to a
nonexistent path, at concrete inputs. -/
theorem C3_witness :
    verify_hashWith (fun _ => false) (fun _ => ⟨none, none⟩)
      ⟨"", "p", ""⟩ = ⟨"", "p", emptyHashMsg⟩ ∧
    verify_hashWith (fun _ => false) (fun _ => ⟨none, none⟩)
      ⟨"deadbeef", "q", ""⟩ = ⟨"deadbeef", "q", invalidPathMsg⟩ :=
  ⟨((C3_verify_invalid_input (fun _ => false) (fun _ => ⟨none, none⟩)
      (fun _ => ⟨some "x", none⟩) ⟨"", "p", ""⟩).1 (by decide)).1,
   ((C3_verify_invalid_input (fun _ => false) (fun _ => ⟨none, none⟩)
      (fun _ => ⟨some "x", none⟩) ⟨"deadbeef", "q", ""⟩).2.1 (by decide)
      (Or.inr (by decide))).1⟩

/-- With valid inputs and a readable regular file, verification reduces to
the case-insensitive comparison of the stripped expected hash against the
content's digest. -/
theorem verify_hash_valid {fs : Filesystem} {p : String} {c : List Nat}
    (hf : fs.node p = .file c true) (hps : pyStrip p = p) (hne : p ≠ "")
    (e l0 : String) (hse : pyStrip e = e) (hee : e ≠ "") :
    (verify_hash fs ⟨e, p, l0⟩).resultLabel =
      if pyLower e = pyLower (sha256hex c) then matchMsg else mismatchMsg := by
  have hisf : isfile fs p = true := by
    unfold isfile
    rw [hf]
  unfold verify_hash
  simp only [verify_hashWith, hse, hps]
  rw [if_neg hee, if_neg (by simp [hne, hisf]), hashfile_file hf]
  simp only []
  rw [if_pos (sha256hex_ne_empty c)]
  split <;> rfl

/-- C7: for a readable file with digest `D`, verifying against `D` reports
a match; verifying against any stripped nonempty string whose lowercasing
differs from `D` (in particular `D` with one character changed to a
different lowercase-hex character) reports a mismatch; and verifying
against `D.upper()` reports a match — case never affects the outcome. -/
theorem C7_verify_match_mismatch_case {fs : Filesystem} {p : String}
    {c : List Nat} (hf : fs.node p = .file c true) (hps : pyStrip p = p)
    (hne : p ≠ "") (l0 : String) :
    (verify_hash fs ⟨sha256hex c, p, l0⟩).resultLabel = matchMsg ∧
    (∀ e, pyStrip e = e → e ≠ "" → pyLower e ≠ pyLower (sha256hex c) →
      (verify_hash fs ⟨e, p, l0⟩).resultLabel = mismatchMsg) ∧
    (∀ (i : Nat) (ch : Char), i < 64 → isLowerHexChar ch = true →
      ch ≠ (sha256hex c).data.getD i 'x' →
      (verify_hash fs ⟨⟨(sha256hex c).data.set i ch⟩, p, l0⟩).resultLabel =
        mismatchMsg) ∧
    (verify_hash fs ⟨pyUpper (sha256hex c), p, l0⟩).resultLabel = matchMsg := by
  have hmismatch : ∀ e, pyStrip e = e → e ≠ "" →
      pyLower e ≠ pyLower (sha256hex c) →
      (verify_hash fs ⟨e, p, l0⟩).resultLabel = mismatchMsg := by
    intro e hse hee hdiff
    rw [verify_hash_valid hf hps hne e l0 hse hee, if_neg hdiff]
  refine ⟨?_, hmismatch, ?_, ?_⟩
  · rw [verify_hash_valid hf hps hne (sha256hex c) l0 (pyStrip_sha256hex c)
      (sha256hex_ne_empty c), if_pos rfl]
  · intro i ch hi hch hdiff
    have hlen : (sha256hex c).data.length = 64 := sha256hex_length c
    have hmem : ∀ x ∈ (sha256hex c).data.set i ch, isLowerHexChar x = true := by
      intro x hx
      rcases List.mem_or_eq_of_mem_set hx with h | h
      · exact sha256hex_chars c x h
      · exact h ▸ hch
    apply hmismatch
    · exact pyStrip_of_nospace fun x hx => hex_not_space (hmem x hx)
    · intro habs
      have := congrArg String.length habs
      simp [hlen] at this
    · rw [pyLower_of_hex hmem, pyLower_sha256hex]
      intro habs
      have hd : (sha256hex c).data.set i ch = (sha256hex c).data :=
        congrArg String.data habs
      have hget : ((sha256hex c).data.set i ch).getD i 'x' =
          (sha256hex c).data.getD i 'x' := by rw [hd]
      rw [List.getD_eq_getElem?_getD, List.getElem?_eq_getElem (by simp [hlen, hi]),
        List.getElem_set_self (by simp [hlen, hi])] at hget
      exact hdiff (by simpa using hget)
  · have hupchars : ∀ x ∈ (pyUpper (sha256hex c)).data, pySpace x = false := by
      intro x hx
      have hx2 : x ∈ (sha256hex c).data.map pyUpperChar := hx
      rw [List.mem_map] at hx2
      obtain ⟨y, hy, rfl⟩ := hx2
      exact hexUpper_not_space (sha256hex_chars c y hy)
    have hse : pyStrip (pyUpper (sha256hex c)) = pyUpper (sha256hex c) :=
      pyStrip_of_nospace hupchars
    have hee : pyUpper (sha256hex c) ≠ "" := by
      intro habs
      have h2 : (sha256hex c).data.map pyUpperChar = ([] : List Char) :=
        congrArg String.data habs
      have h3 := congrArg List.length h2
      have h64 : (sha256hex c).data.length = 64 := sha256hex_length c
      simp [h64] at h3
    rw [verify_hash_valid hf hps hne (pyUpper (sha256hex c)) l0 hse hee,
      if_pos (by rw [pyLower_pyUpper_of_hex (sha256hex_chars c), pyLower_sha256hex])]

/-- C7 witness: the theorem applied to the empty file, its digest, the
digest with one flipped character, and the uppercased digest. -/
theorem C7_witness :
    (verify_hash fsEmptyFile ⟨sha256hex [], "f", ""⟩).resultLabel = matchMsg ∧
    (verify_hash fsEmptyFile ⟨⟨(sha256hex []).data.set 0 '0'⟩, "f", ""⟩).resultLabel
      = mismatchMsg ∧
    (verify_hash fsEmptyFile ⟨pyUpper (sha256hex []), "f", ""⟩).resultLabel
      = matchMsg :=
  ⟨(@C7_verify_match_mismatch_case fsEmptyFile "f" [] (by decide) (by decide)
      (by decide) "").1,
   (@C7_verify_match_mismatch_case fsEmptyFile "f" [] (by decide) (by decide)
      (by decide) "").2.2.1 0 '0' (by decide) (by decide) (by decide),
   (@C7_verify_match_mismatch_case fsEmptyFile "f" [] (by decide) (by decide)
      (by decide) "").2.2.2⟩

theorem pyStrip_ws_wrap {w1 w2 : String} (s : String)
    (h1 : ∀ c ∈ w1.data, pySpace c = true)
    (h2 : ∀ c ∈ w2.data, pySpace c = true) :
    pyStrip (w1 ++ s ++ w2) = pyStrip s := by
  show String.mk (stripChars (w1 ++ s ++ w2).data) = String.mk (stripChars s.data)
  rw [String.data_append, String.data_append]
  exact congrArg String.mk (stripChars_ws_wrap h1 h2)

/-- The verification label depends on the two inputs only through their
stripped values. -/
theorem verify_label_congr (isf : String → Bool) (hh : String → HashCall)
    {a a2 b b2 l l2 : String} (ha : pyStrip a = pyStrip a2)
    (hb : pyStrip b = pyStrip b2) :
    (verify_hashWith isf hh ⟨a, b, l⟩).resultLabel =
      (verify_hashWith isf hh ⟨a2, b2, l2⟩).resultLabel := by
  simp only [verify_hashWith, ha, hb]
  by_cases hA : pyStrip a2 = ""
  · rw [if_pos hA, if_pos hA]
  · rw [if_neg hA, if_neg hA]
    by_cases hB : (decide (pyStrip b2 = "") || !isf (pyStrip b2)) = true
    · rw [if_pos hB, if_pos hB]
    · rw [if_neg hB, if_neg hB]
      cases hm : (hh (pyStrip b2)).message <;>
        cases hr : (hh (pyStrip b2)).result <;>
          simp only [hm, hr] <;> (try split) <;> (try split) <;> rfl

/-- The generation label and hash output depend on the file input only
through its stripped value. -/
theorem generate_congr (isf : String → Bool) (hh : String → HashCall)
    {b b2 o o2 l l2 : String} (hb : pyStrip b = pyStrip b2) :
    (generate_hashWith isf hh ⟨b, o, l⟩).resultLabel =
      (generate_hashWith isf hh ⟨b2, o2, l2⟩).resultLabel ∧
    (generate_hashWith isf hh ⟨b, o, l⟩).hashOutput =
      (generate_hashWith isf hh ⟨b2, o2, l2⟩).hashOutput := by
  simp only [generate_hashWith, hb]
  by_cases hB : (decide (pyStrip b2 = "") || !isf (pyStrip b2)) = true
  · rw [if_pos hB, if_pos hB]
    exact ⟨rfl, rfl⟩
  · rw [if_neg hB, if_neg hB]
    cases hm : (hh (pyStrip b2)).message <;>
      cases hr : (hh (pyStrip b2)).result <;>
        simp only [hm, hr] <;> (try split) <;>
          first
          | exact ⟨rfl, rfl⟩
          | trivial

/-- C10: all-whitespace expected-hash or file-path inputs strip to blank
and report the corresponding `InvalidInput` in both verify and generate;
and wrapping an input in leading/trailing whitespace never changes the
reported label (nor, for generate, the hash output). -/
theorem C10_whitespace_handling (isf : String → Bool) (hh : String → HashCall) :
    (∀ st : VerifyState, (∀ c ∈ st.hashInput.data, pySpace c = true) →
      verify_hashWith isf hh st = { st with resultLabel := emptyHashMsg }) ∧
    (∀ st : VerifyState, pyStrip st.hashInput ≠ "" →
      (∀ c ∈ st.fileInput.data, pySpace c = true) →
      verify_hashWith isf hh st = { st with resultLabel := invalidPathMsg }) ∧
    (∀ st : GenState, (∀ c ∈ st.fileInput.data, pySpace c = true) →
      generate_hashWith isf hh st =
        { st with resultLabel := invalidPathMsg, hashOutput := "" }) ∧
    (∀ w1 w2 w3 w4 e p l l2 : String,
      (∀ c ∈ w1.data, pySpace c = true) → (∀ c ∈ w2.data, pySpace c = true) →
      (∀ c ∈ w3.data, pySpace c = true) → (∀ c ∈ w4.data, pySpace c = true) →
      (verify_hashWith isf hh ⟨w1 ++ e ++ w2, w3 ++ p ++ w4, l⟩).resultLabel =
        (verify_hashWith isf hh ⟨e, p, l2⟩).resultLabel) ∧
    (∀ w1 w2 p o o2 l l2 : String,
      (∀ c ∈ w1.data, pySpace c = true) → (∀ c ∈ w2.data, pySpace c = true) →
      (generate_hashWith isf hh ⟨w1 ++ p ++ w2, o, l⟩).resultLabel =
        (generate_hashWith isf hh ⟨p, o2, l2⟩).resultLabel ∧
      (generate_hashWith isf hh ⟨w1 ++ p ++ w2, o, l⟩).hashOutput =
        (generate_hashWith isf hh ⟨p, o2, l2⟩).hashOutput) := by
  refine ⟨?_, ?_, ?_, ?_, ?_⟩
  · intro st hws
    simp only [verify_hashWith]
    rw [if_pos (pyStrip_allws hws)]
  · intro st he hws
    simp only [verify_hashWith]
    rw [if_neg he, if_pos (by simp [pyStrip_allws hws])]
  · intro st hws
    simp only [generate_hashWith]
    rw [if_pos (by simp [pyStrip_allws hws])]
  · intro w1 w2 w3 w4 e p l l2 h1 h2 h3 h4
    exact verify_label_congr isf hh (pyStrip_ws_wrap e h1 h2)
      (pyStrip_ws_wrap p h3 h4)
  · intro w1 w2 p o o2 l l2 h1 h2
    exact generate_congr isf hh (pyStrip_ws_wrap p h1 h2)

/-- C10 witness: the theorem applied to all-whitespace and
whitespace-wrapped concrete inputs. -/
theorem C10_witness :
    verify_hashWith (fun _ => true) (fun _ => ⟨none, none⟩) ⟨"  ", "x", ""⟩ =
      ⟨"  ", "x", emptyHashMsg⟩ ∧
    (verify_hashWith (fun _ => true) (fun _ => ⟨none, none⟩)
        ⟨" " ++ "abc" ++ " ", " " ++ "x" ++ " ", ""⟩).resultLabel =
      (verify_hashWith (fun _ => true) (fun _ => ⟨none, none⟩)
        ⟨"abc", "x", ""⟩).resultLabel :=
  ⟨(C10_whitespace_handling (fun _ => true) (fun _ => ⟨none, none⟩)).1
      ⟨"  ", "x", ""⟩ (by decide),
   (C10_whitespace_handling (fun _ => true) (fun _ => ⟨none, none⟩)).2.2.2.1
      " " " " " " " " "abc" "x" "" "" (by decide) (by decide) (by decide)
      (by decide)⟩

theorem strLeB_total : ∀ as bs : List Char, strLeB as bs = true ∨ strLeB bs as = true := by
  intro as
  induction as with
  | nil => intro bs; left; rfl
  | cons a as ih =>
    intro bs
    cases bs with
    | nil => right; rfl
    | cons b bs =>
      simp only [strLeB]
      by_cases h1 : a.toNat < b.toNat
      · left; rw [if_pos h1]
      · by_cases h2 : a.toNat = b.toNat
        · rw [if_neg h1, if_pos h2, if_neg (by omega), if_pos (by omega)]
          exact ih bs
        · right; rw [if_pos (by omega)]

theorem strLeB_trans : ∀ as bs cs : List Char,
    strLeB as bs = true → strLeB bs cs = true → strLeB as cs = true := by
  intro as
  induction as with
  | nil => intro bs cs _ _; rfl
  | cons a as ih =>
    intro bs cs hab hbc
    cases bs with
    | nil => simp [strLeB] at hab
    | cons b bs =>
      cases cs with
      | nil => simp [strLeB] at hbc
      | cons c cs =>
        simp only [strLeB] at hab hbc ⊢
        by_cases hab1 : a.toNat < b.toNat
        · by_cases hbc1 : b.toNat < c.toNat
          · rw [if_pos (by omega)]
          · by_cases hbc2 : b.toNat = c.toNat
            · rw [if_pos (by omega)]
            · rw [if_neg hbc1, if_neg hbc2] at hbc
              simp at hbc
        · by_cases hab2 : a.toNat = b.toNat
          · rw [if_neg hab1, if_pos hab2] at hab
            by_cases hbc1 : b.toNat < c.toNat
            · rw [if_pos (by omega)]
            · by_cases hbc2 : b.toNat = c.toNat
              · rw [if_neg hbc1, if_pos hbc2] at hbc
                rw [if_neg (by omega), if_pos (by omega)]
                exact ih bs cs hab hbc
              · rw [if_neg hbc1, if_neg hbc2] at hbc
                simp at hbc
          · rw [if_neg hab1, if_neg hab2] at hab
            simp at hab

theorem scanLeB_total (a b : RawEntry) : scanLeB a b = true ∨ scanLeB b a = true := by
  unfold scanLeB
  cases ha : (keyOf a).1 <;> cases hb : (keyOf b).1 <;> simp [ha, hb]
  · exact strLeB_total _ _
  · exact strLeB_total _ _

theorem scanLeB_trans (a b c : RawEntry)
    (h1 : scanLeB a b = true) (h2 : scanLeB b c = true) : scanLeB a c = true := by
  unfold scanLeB at h1 h2 ⊢
  cases ha : (keyOf a).1 <;> cases hb : (keyOf b).1 <;> cases hc : (keyOf c).1 <;>
    rw [ha, hb] at h1 <;> rw [hb, hc] at h2 <;> simp_all <;>
      exact strLeB_trans _ _ _ h1 h2

theorem pairwise_insertionSort_scanLe (l : List RawEntry) :
    List.Pairwise scanLe (List.insertionSort scanLe l) := by
  haveI : IsTotal RawEntry scanLe := ⟨scanLeB_total⟩
  haveI : IsTrans RawEntry scanLe := ⟨scanLeB_trans⟩
  exact List.sorted_insertionSort scanLe l

theorem entryNode_name (p : List String) (e : RawEntry) :
    (entryNode p e).name = e.name := by
  unfold entryNode
  split <;> rfl

theorem entryNode_data (p : List String) (e : RawEntry) :
    (entryNode p e).data = p ++ [e.name] := by
  unfold entryNode
  split <;> rfl

theorem entryNode_kind (p : List String) (e : RawEntry) :
    (entryNode p e).kind = if e.isDir then .Directory else .File := by
  unfold entryNode
  split <;> simp_all

theorem entryNode_kind_ne (p : List String) (e : RawEntry) :
    (entryNode p e).kind ≠ .ParentLink := by
  rw [entryNode_kind]
  split <;> simp

theorem mem_listingOf {p : List String} {raw : List RawEntry} {x : TNode}
    (hx : x ∈ listingOf p raw) :
    ∃ e, x = entryNode p e ∧ pyStartsWith e.name "." = false ∧
      e ∈ List.insertionSort scanLe raw := by
  unfold listingOf at hx
  rw [List.mem_map] at hx
  obtain ⟨e, he, rfl⟩ := hx
  rw [List.mem_filter] at he
  exact ⟨e, rfl, by simpa using he.2, he.1⟩

theorem parentDirOf_eq_iff (p : List String) : parentDirOf p = p ↔ p = [] := by
  constructor
  · intro h
    cases p with
    | nil => rfl
    | cons a t =>
      exfalso
      have := congrArg List.length h
      simp [parentDirOf] at this
  · rintro rfl
    rfl

theorem append_singleton_ne (p : List String) (x : String) : p ++ [x] ≠ p := by
  intro h
  have := congrArg List.length h
  simp at this

theorem parentDirOf_ne {p : List String} (h : p ≠ []) : parentDirOf p ≠ p :=
  fun habs => h ((parentDirOf_eq_iff p).mp habs)

theorem up_label_starts : pyStartsWith upLabel "⬆  .." = true := rfl

theorem dir_label_not_up (s : String) :
    pyStartsWith ("📁  " ++ s) "⬆  .." = false := rfl

theorem file_label_not_up (s : String) :
    pyStartsWith ("📄  " ++ s) "⬆  .." = false := rfl

theorem mem_populate_entries {fs : ScanFS} {p : List String} {x : TNode}
    (hx : x ∈ (populate_tree fs p).entries) :
    (p ≠ [] ∧ x = upNode p) ∨ ∃ e : RawEntry, x = entryNode p e := by
  have hpn : ∀ y ∈ parentNodes p, p ≠ [] ∧ y = upNode p := by
    intro y hy
    unfold parentNodes at hy
    split at hy
    case isTrue hne =>
      refine ⟨fun habs => ?_, by simpa using hy⟩
      rw [habs] at hne
      exact hne rfl
    case isFalse => simp at hy
  unfold populate_tree at hx
  cases hr : fs.readDir p with
  | ok raw =>
    rw [hr] at hx
    simp only at hx
    rcases List.mem_append.mp hx with h | h
    · exact Or.inl (hpn x h)
    · obtain ⟨e, rfl, _, _⟩ := mem_listingOf h
      exact Or.inr ⟨e, rfl⟩
  | error u =>
    rw [hr] at hx
    exact Or.inl (hpn x hx)

theorem populate_current (fs : ScanFS) (p : List String) :
    (populate_tree fs p).current = p := by
  unfold populate_tree
  cases fs.readDir p <;> rfl

theorem select_upNode (fs : ScanFS) {p : List String} (hp : p ≠ []) :
    on_tree_node_selected fs (populate_tree fs p) (upNode p) =
      (populate_tree fs (parentDirOf p), []) := by
  unfold on_tree_node_selected
  rw [if_neg (by rw [populate_current]; exact parentDirOf_ne hp),
    if_pos (show pyStartsWith (upNode p).label "⬆  .." = true from rfl)]
  rfl

theorem select_dirNode (fs : ScanFS) (p : List String) {e : RawEntry}
    (hd : e.isDir = true) :
    on_tree_node_selected fs (populate_tree fs p) (entryNode p e) =
      (populate_tree fs (p ++ [e.name]), []) := by
  unfold on_tree_node_selected
  simp only [entryNode, hd, if_true]
  rw [if_neg (by rw [populate_current]; exact append_singleton_ne p e.name),
    if_neg (by rw [dir_label_not_up]; simp)]

theorem select_fileNode (fs : ScanFS) (p : List String) {e : RawEntry}
    (hd : e.isDir = false) :
    on_tree_node_selected fs (populate_tree fs p) (entryNode p e) =
      (populate_tree fs p, [.fileSelected (p ++ [e.name])]) := by
  unfold on_tree_node_selected
  simp only [entryNode, hd, Bool.false_eq_true, if_false]
  rw [if_neg (by rw [populate_current]; exact append_singleton_ne p e.name),
    if_neg (by rw [file_label_not_up]; simp)]

theorem populate_entries_eq (fs : ScanFS) (p : List String) :
    (populate_tree fs p).entries = parentNodes p ++
      (match fs.readDir p with
        | .ok raw => listingOf p raw
        | .error _ => []) := by
  unfold populate_tree
  cases fs.readDir p <;> simp

theorem mem_parentNodes {p : List String} {y : TNode} (hy : y ∈ parentNodes p) :
    p ≠ [] ∧ y = upNode p := by
  unfold parentNodes at hy
  split at hy
  case isTrue hne =>
    refine ⟨fun habs => ?_, by simpa using hy⟩
    rw [habs] at hne
    exact hne rfl
  case isFalse => simp at hy

/-- C2: a listing built from a readable directory contains no entry whose
name begins with `.`; no file entry ever precedes a directory entry; and
within the directory group and within the file group the entries are
ordered by the case-insensitive (lowercased, code-point lexicographic)
order on their names. -/
theorem C2_listing_order (fs : ScanFS) (p : List String) (raw : List RawEntry)
    (h : fs.readDir p = .ok raw) :
    (∀ e ∈ (populate_tree fs p).entries, pyStartsWith e.name "." = false) ∧
    List.Pairwise (fun a b : TNode => ¬(a.kind = .File ∧ b.kind = .Directory))
      (populate_tree fs p).entries ∧
    List.Pairwise (fun a b : TNode => a.kind = b.kind → a.kind ≠ .ParentLink →
      strLeB (pyLower a.name).data (pyLower b.name).data = true)
      (populate_tree fs p).entries := by
  have hent : (populate_tree fs p).entries = parentNodes p ++ listingOf p raw := by
    rw [populate_entries_eq, h]
  have hfilterPW : List.Pairwise scanLe
      ((List.insertionSort scanLe raw).filter fun e => !(pyStartsWith e.name ".")) :=
    (pairwise_insertionSort_scanLe raw).filter _
  have hlist : List.Pairwise
      (fun a b : TNode => ¬(a.kind = .File ∧ b.kind = .Directory) ∧
        (a.kind = b.kind → a.kind ≠ .ParentLink →
          strLeB (pyLower a.name).data (pyLower b.name).data = true))
      (listingOf p raw) := by
    unfold listingOf
    rw [List.pairwise_map]
    refine hfilterPW.imp ?_
    intro a b hab
    constructor
    · rintro ⟨hFa, hDb⟩
      rw [entryNode_kind] at hFa hDb
      have ha : a.isDir = false := by revert hFa; split <;> simp_all
      have hb : b.isDir = true := by revert hDb; split <;> simp_all
      simp only [scanLe, scanLeB, keyOf, ha, hb] at hab
      simp at hab
    · intro hk _
      rw [entryNode_kind, entryNode_kind] at hk
      have hdd : a.isDir = b.isDir := by revert hk; split <;> split <;> simp_all
      simp only [scanLe, scanLeB, keyOf, hdd, if_pos] at hab
      rw [entryNode_name, entryNode_name]
      simpa using hab
  rw [hent]
  refine ⟨?_, ?_, ?_⟩
  · intro e he
    rcases List.mem_append.mp he with h1 | h1
    · rw [(mem_parentNodes h1).2]
      rfl
    · obtain ⟨r, rfl, hdot, _⟩ := mem_listingOf h1
      rw [entryNode_name]
      exact hdot
  · rw [List.pairwise_append]
    refine ⟨?_, hlist.imp fun hr => hr.1, ?_⟩
    · unfold parentNodes
      split <;> simp
    · intro a ha b _
      rw [(mem_parentNodes ha).2]
      rintro ⟨habs, _⟩
      simp [upNode] at habs
  · rw [List.pairwise_append]
    refine ⟨?_, hlist.imp fun hr => hr.2, ?_⟩
    · unfold parentNodes
      split <;> simp
    · intro a ha b _
      rw [(mem_parentNodes ha).2]
      intro _ habs
      exact absurd rfl habs

/-- C2 witness: the claim's properties evaluated on the concrete demo
directory, whose raw scan is unsorted and contains a hidden file. -/
theorem C2_witness :
    pyStartsWith (entryNode ["a"] ⟨"b.txt", false⟩).name "." = false :=
  (C2_listing_order scanDemo ["a"]
    [⟨"b.txt", false⟩, ⟨"Sub", true⟩, ⟨".hidden", false⟩, ⟨"data", true⟩]
    (by rfl)).1 (entryNode ["a"] ⟨"b.txt", false⟩) (by decide)

/-- C5: the parent-link entry is omitted exactly when the computed parent
path equals the current path, which happens exactly at the filesystem
root; otherwise exactly one parent-link entry is produced, and selecting
it rebuilds the tree at the computed parent. -/
theorem C5_parent_link_rule (fs : ScanFS) (p : List String) :
    (parentDirOf p = p ↔ p = []) ∧
    (List.countP (fun e => e.kind == EntryKind.ParentLink)
        (populate_tree fs p).entries = if parentDirOf p = p then 0 else 1) ∧
    (∀ e ∈ (populate_tree fs p).entries, e.kind = .ParentLink →
      p ≠ [] ∧ on_tree_node_selected fs (populate_tree fs p) e =
        (populate_tree fs (parentDirOf p), [])) := by
  refine ⟨parentDirOf_eq_iff p, ?_, ?_⟩
  · have hpn : List.countP (fun e => e.kind == EntryKind.ParentLink)
        (parentNodes p) = if parentDirOf p = p then 0 else 1 := by
      unfold parentNodes
      by_cases hc : parentDirOf p = p
      · rw [if_neg (by tauto), if_pos hc]
        rfl
      · rw [if_pos hc, if_neg hc]
        rfl
    rw [populate_entries_eq, List.countP_append, hpn]
    cases hr : fs.readDir p with
    | ok raw =>
      have h0 : List.countP (fun e => e.kind == EntryKind.ParentLink)
          (listingOf p raw) = 0 := by
        rw [List.countP_eq_zero]
        intro a ha
        obtain ⟨r, rfl, _, _⟩ := mem_listingOf ha
        simpa using entryNode_kind_ne p r
      simp [h0]
    | error u => simp
  · intro e he hk
    rcases mem_populate_entries he with ⟨hp, rfl⟩ | ⟨r, rfl⟩
    · exact ⟨hp, select_upNode fs hp⟩
    · exact absurd hk (entryNode_kind_ne p r)

/-- C5 witness: at the root the parent link is absent; at the demo
directory exactly one parent link is present and selecting it navigates
to the parent. -/
theorem C5_witness :
    List.countP (fun e => e.kind == EntryKind.ParentLink)
      (populate_tree scanDemo ["a"]).entries = 1 ∧
    List.countP (fun e => e.kind == EntryKind.ParentLink)
      (populate_tree scanDemo []).entries = 0 ∧
    on_tree_node_selected scanDemo (populate_tree scanDemo ["a"]) (upNode ["a"]) =
      (populate_tree scanDemo [], []) := by
  refine ⟨?_, ?_, ?_⟩
  · have h := (C5_parent_link_rule scanDemo ["a"]).2.1
    rw [if_neg (by decide)] at h
    exact h
  · have h := (C5_parent_link_rule scanDemo []).2.1
    rw [if_pos (by decide)] at h
    exact h
  · exact ((C5_parent_link_rule scanDemo ["a"]).2.2 (upNode ["a"])
      (by decide) (by decide)).2

/-- C6: selecting a directory or parent-link entry of the current listing
emits no event (it navigates instead); selecting a file entry leaves the
tree state unchanged and emits exactly one `FileSelected` event carrying
that entry's absolute path. -/
theorem C6_selection_events (fs : ScanFS) (p : List String) :
    ∀ e ∈ (populate_tree fs p).entries,
      ((e.kind = .Directory ∨ e.kind = .ParentLink) →
        (on_tree_node_selected fs (populate_tree fs p) e).2 = []) ∧
      (e.kind = .File →
        on_tree_node_selected fs (populate_tree fs p) e =
          (populate_tree fs p, [AppEvent.fileSelected e.data])) := by
  intro e he
  rcases mem_populate_entries he with ⟨hp, rfl⟩ | ⟨r, rfl⟩
  · constructor
    · intro _
      rw [select_upNode fs hp]
    · intro hk
      simp [upNode] at hk
  · cases hd : r.isDir with
    | false =>
      constructor
      · intro habs
        rw [entryNode_kind, if_neg (by simp [hd])] at habs
        rcases habs with h | h <;> simp at h
      · intro _
        rw [entryNode_data, select_fileNode fs p hd]
    | true =>
      constructor
      · intro _
        rw [select_dirNode fs p hd]
      · intro hk
        rw [entryNode_kind, if_pos hd] at hk
        simp at hk

/-- C6 witness: selecting the concrete file entry of the demo directory
emits exactly its `FileSelected` event and keeps the state. -/
theorem C6_witness :
    on_tree_node_selected scanDemo (populate_tree scanDemo ["a"])
        (entryNode ["a"] ⟨"b.txt", false⟩) =
      (populate_tree scanDemo ["a"],
        [AppEvent.fileSelected (entryNode ["a"] ⟨"b.txt", false⟩).data]) :=
  (C6_selection_events scanDemo ["a"] (entryNode ["a"] ⟨"b.txt", false⟩)
    (by decide)).2 (by decide)

/-- C8: when reading the directory raises `PermissionError`, the
uncaught try-block would propagate the exception, but `populate_tree`
swallows it: the produced state keeps the current path, its entries omit
all scanned content (only the parent link survives), and no error state
exists anywhere in the resulting `TreeState`. -/
theorem C8_permission_error_swallowed (fs : ScanFS) (p : List String)
    (h : fs.readDir p = .error ()) :
    populateBody fs p = .error () ∧
    populate_tree fs p = ⟨p, parentNodes p⟩ ∧
    ∀ e ∈ (populate_tree fs p).entries, e = upNode p := by
  have h2 : populate_tree fs p = ⟨p, parentNodes p⟩ := by
    unfold populate_tree
    rw [h]
  refine ⟨by unfold populateBody; rw [h], h2, ?_⟩
  intro e he
  rw [h2] at he
  exact (mem_parentNodes he).2

/-- C8 witness: the theorem applied to the demo scan filesystem, where
every directory except `["a"]` raises `PermissionError`. -/
theorem C8_witness :
    populate_tree scanDemo ["b"] = ⟨["b"], parentNodes ["b"]⟩ :=
  (C8_permission_error_swallowed scanDemo ["b"] (by rfl)).2.1

/-- C9 counterexample: in the generate screen, processing a
`FileSelected` event does more than populate the file-path field — it
invokes `generate_hash` at once, so the resulting state already carries
the digest of the selected file. -/
theorem C9_counterexample :
    genOnFileSelected fsEmptyFile ⟨"", "", ""⟩ "f" ≠
      (⟨"f", "", ""⟩ : GenState) ∧
    (genOnFileSelected fsEmptyFile ⟨"", "", ""⟩ "f").hashOutput = emptyDigest := by
  exact ⟨by decide, by decide⟩

/-- C9 (amended): in the verify screen, processing `FileSelected` only
populates the file-path field and the hasher runs only on a later
trigger; in the generate screen, processing `FileSelected` populates the
field and then invokes the hasher directly — with a valid path the
selection event itself already produces the digest. -/
theorem C9_selection_processing (st : VerifyState) (g : GenState)
    (path : String) (isf : String → Bool) (hh : String → HashCall) :
    verifyOnFileSelected st path = { st with fileInput := path } ∧
    genOnFileSelectedWith isf hh g path =
      generate_hashWith isf hh { g with fileInput := path } ∧
    (∀ d, pyStrip path = path → path ≠ "" → isf path = true →
      hh path = ⟨some d, none⟩ → d ≠ "" →
      (genOnFileSelectedWith isf hh g path).hashOutput = d ∧
      (genOnFileSelectedWith isf hh g path).resultLabel = genSuccessMsg) := by
  refine ⟨rfl, rfl, ?_⟩
  intro d hs hn hisf hcall hd
  unfold genOnFileSelectedWith generate_hashWith
  simp only [hs]
  rw [if_neg (by simp [hn, hisf]), hcall]
  simp only []
  rw [if_pos hd]
  exact ⟨rfl, rfl⟩

/-- C9 witness: the amended theorem at concrete states, a concrete path
and a concrete hasher. -/
theorem C9_witness :
    verifyOnFileSelected ⟨"", "", ""⟩ "f" = ⟨"", "f", ""⟩ ∧
    (genOnFileSelectedWith (fun _ => true) (fun _ => ⟨some "x", none⟩)
      ⟨"", "", ""⟩ "f").hashOutput = "x" :=
  ⟨(C9_selection_processing ⟨"", "", ""⟩ ⟨"", "", ""⟩ "f" (fun _ => true)
      (fun _ => ⟨some "x", none⟩)).1,
   ((C9_selection_processing ⟨"", "", ""⟩ ⟨"", "", ""⟩ "f" (fun _ => true)
      (fun _ => ⟨some "x", none⟩)).2.2 "x" (by decide) (by decide) (by decide)
      rfl (by decide)).1⟩

end Tuisha
